import Mathlib

/-!
# Verification of the ssh-mgmt registry tool

Shallow embedding of `ssh-mgmt.py`, a CLI maintaining a JSON-backed
registry of SSH connection profiles, together with proofs about the
spec-level claims on it.

Modelling conventions:
* JSON values parsed by `json.load` are modelled by the inductive `JsonVal`
  (strings, integers, booleans, objects, arrays, null; non-integral JSON
  numbers never occur in the claims and are omitted).
* Python dicts are association lists with unique keys in insertion order.
* Uncaught Python exceptions are modelled by `Except` with error `PyError`.
* The registry file is `Option JsonVal` (`none` = the file does not exist);
  `json.dump` followed by `json.load` is the identity at the value level,
  so saving writes the `JsonVal` itself.
* The current UTC Unix timestamp and the local-time `strftime` rendering
  are environment inputs, passed as explicit parameters (`now`, `fmtTime`).
-/

/-- A JSON value as produced by Python's `json.load`. -/
inductive JsonVal where
  | str (s : String)
  | int (n : Int)
  | bool (b : Bool)
  | null
  | arr (vs : List JsonVal)
  | obj (kvs : List (String × JsonVal))
deriving Repr

/-- A Python dict mapping strings to JSON values (insertion-ordered
association list; Python dict keys are unique). -/
abbrev Dict := List (String × JsonVal)

/-- `d[k]` as a total lookup: the value at the first matching key. -/
def dictLookup (kvs : Dict) (k : String) : Option JsonVal :=
  match kvs with
  | [] => none
  | (k2, v) :: rest => if k2 = k then some v else dictLookup rest k

/-- `d[k] = v` (Python dict assignment): replace the value at an existing
key in place, else append the new pair at the end. -/
def dictSet (kvs : Dict) (k : String) (v : JsonVal) : Dict :=
  match kvs with
  | [] => [(k, v)]
  | (k2, v2) :: rest => if k2 = k then (k, v) :: rest else (k2, v2) :: dictSet rest k v

/-! ## IPv4 address validation

`is_legal_ipv4_addr` wraps `ipaddress.IPv4Address` (CPython). For a string
argument CPython splits on `'.'`, requires exactly 4 octet strings, and each
octet string must be nonempty, ASCII digits only, at most 3 characters, no
leading zero (unless it is exactly `"0"`), and have value at most 255. -/

/-- `str.split('.')` on the character list of a Python string: split on every
dot, keeping empty groups (so `"".split('.') = [""]`, `".".split('.') = ["",""]`). -/
def splitDots (cs : List Char) : List (List Char) :=
  match cs with
  | [] => [[]]
  | c :: rest =>
    if c = '.' then [] :: splitDots rest
    else
      match splitDots rest with
      | g :: gs => (c :: g) :: gs
      | [] => [[c]]

/-- Numeric value of an ASCII digit character. -/
def digitVal (c : Char) : Nat := c.toNat - 48

/-- `int(octet_str, 10)` on a list of ASCII digit characters. -/
def octetVal (cs : List Char) : Nat :=
  cs.foldl (fun acc c => acc * 10 + digitVal c) 0

/-- CPython `IPv4Address._parse_octet`: nonempty, ASCII digits only, at most
3 characters, no leading zero (except `"0"` itself), value at most 255. -/
def parse_octet (cs : List Char) : Option Nat :=
  if cs = [] then none
  else if ¬ (cs.all Char.isDigit) then none
  else if cs.length > 3 then none
  else if cs ≠ ['0'] ∧ cs.head? = some '0' then none
  else if octetVal cs > 255 then none
  else some (octetVal cs)

/-- CPython `IPv4Address._ip_int_from_string`, keeping the four octet values:
split on dots, demand exactly four octets, parse each. -/
def parse_ipv4 (s : String) : Option (Nat × Nat × Nat × Nat) :=
  match (splitDots s.data).map parse_octet with
  | [some a, some b, some c, some d] => some (a, b, c, d)
  | _ => none

/-- `is_legal_ipv4_addr` from the source: `True` iff `ipaddress.IPv4Address`
accepts the string. -/
def is_legal_ipv4_addr (s : String) : Bool :=
  (parse_ipv4 s).isSome


/-! ## Load-time validation (`read_server_data`)

Python exceptions are modelled by `PyError`. The first six constructors are
the `raise Exception(...)` sites of `read_server_data`, each carrying what
its f-string interpolates; the rest model built-in exceptions reachable
elsewhere (`KeyError`, `TypeError`, `AttributeError`, `IndexError`). -/

inductive PyError where
  | dataNotDict
  | nodeNotDict (hostname : String)
  | illegalDict (hostname : String)
  | illegalIp (hostname : String) (ipv : JsonVal)
  | illegalUsername (hostname : String) (v : JsonVal)
  | illegalAddTime (hostname : String) (v : JsonVal)
  | keyError (key : String)
  | typeError
  | attributeError
  | indexError
  | overflowError

/-- The hostname named by a load-validation error message, if any. -/
def PyError.hostname? : PyError → Option String
  | .nodeNotDict h => some h
  | .illegalDict h => some h
  | .illegalIp h _ => some h
  | .illegalUsername h _ => some h
  | .illegalAddTime h _ => some h
  | _ => none

def REQUIRED_KEYS : List String := ["ip", "username", "add_time"]

/-- `set(items.keys()) == REQUIRED_KEYS` as sets. -/
def keySetEq (ks : List String) : Bool :=
  ks.all (fun k => REQUIRED_KEYS.contains k) && REQUIRED_KEYS.all (fun k => ks.contains k)

/-- `ipaddress.IPv4Address(v)` succeeds: CPython accepts a packed int in
`[0, 2^32)` (and a `bool`, since Python `bool` is a subclass of `int`,
`True` being `1`); any other non-string value is converted by `str()` and
never parses as a dotted quad. -/
def ipv4_ok : JsonVal → Bool
  | .str s => is_legal_ipv4_addr s
  | .int n => decide (0 ≤ n ∧ n < 4294967296)
  | .bool _ => true
  | _ => false

/-- `isinstance(v, str) and v` (a non-empty string). -/
def username_ok : JsonVal → Bool
  | .str s => decide (s ≠ "")
  | _ => false

/-- `isinstance(v, int)`; Python `bool` is a subclass of `int`. -/
def add_time_ok : JsonVal → Bool
  | .int _ => true
  | .bool _ => true
  | _ => false

/-- Validation of one registry node, following the source order: dict check,
key-set check, ip check, username check, add_time check. The `keyError`
branches model Python's `KeyError` on subscripting; they are unreachable
because the key-set check has already passed. -/
def validate_entry (hostname : String) (items : JsonVal) : Except PyError Unit :=
  match items with
  | .obj kvs =>
    if keySetEq (kvs.map Prod.fst) = false then .error (.illegalDict hostname)
    else
      match dictLookup kvs "ip" with
      | none => .error (.keyError "ip")
      | some ipv =>
        if ipv4_ok ipv = false then .error (.illegalIp hostname ipv)
        else
          match dictLookup kvs "username" with
          | none => .error (.keyError "username")
          | some uv =>
            if username_ok uv = false then .error (.illegalUsername hostname uv)
            else
              match dictLookup kvs "add_time" with
              | none => .error (.keyError "add_time")
              | some tv =>
                if add_time_ok tv = false then .error (.illegalAddTime hostname tv)
                else .ok ()
  | _ => .error (.nodeNotDict hostname)

/-- The `for hostname, items in data.items()` validation loop: fail-fast on
the first offending node, in iteration order. -/
def validate_entries : Dict → Except PyError Unit
  | [] => .ok ()
  | (hostname, items) :: rest => do
    validate_entry hostname items
    validate_entries rest

/-- `read_server_data`, as a function of the registry file's content
(`none` = file absent). Returns the loaded dict (or the fatal error) plus
the list of file writes the call performs (creation of an empty `{}` file
when absent). -/
def read_server_data (file : Option JsonVal) : Except PyError Dict × List JsonVal :=
  match file with
  | none => (.ok [], [.obj []])
  | some (.obj kvs) =>
    (match validate_entries kvs with
     | .ok _ => .ok kvs
     | .error e => .error e, [])
  | some _ => (.error .dataNotDict, [])

/-- `save_server_data`: the file content written (`json.dump` of the full
in-memory registry). -/
def save_server_data (sd : Dict) : JsonVal := .obj sd

/-! ## Operations -/

/-- `has_server`. -/
def has_server (hostname : String) (sd : Dict) : Bool :=
  if (dictLookup sd hostname).isSome then true else false

/-- `add_server`, with the current UTC Unix timestamp
`int(datetime.now(timezone.utc).timestamp())` passed as `now`. Returns the
success flag, the updated registry, and the printed error messages. -/
def add_server (ipaddr username hostname : String) (now : Int) (sd : Dict) :
    Bool × Dict × List String :=
  if is_legal_ipv4_addr ipaddr = false then
    (false, sd, ["Error: illegal IPv4 address is given: \x60" ++ ipaddr ++ "\x60"])
  else if has_server hostname sd = true then
    (false, sd, ["Error: server \x60" ++ hostname ++ "\x60 already exists"])
  else
    (true,
     dictSet sd hostname (.obj
       [("ip", .str ipaddr), ("username", .str username), ("add_time", .int now)]),
     [])

/-! ## `list_server`

The table is built as a list of rows (each a Python list of 4 items: the
hostname, the raw `ip` and `username` values, and the formatted time).
Column widths use `len(str(item))`; printing uses `item.ljust(...)`, which
raises `AttributeError` when an item is not a string. The local-time
rendering `datetime.fromtimestamp(t).strftime("%Y-%m-%d %H:%M:%S")` is the
environment parameter `fmtTime`. -/

mutual
/-- Python `repr()` of a JSON value (string escaping inside containers is
not reproduced; containers never occur as record fields in validated
registries). -/
def pyrepr : JsonVal → String
  | .str s => "\x27" ++ s ++ "\x27"
  | .int n => toString n
  | .bool b => if b then "True" else "False"
  | .null => "None"
  | .arr vs => "[" ++ String.intercalate ", " (pyreprList vs) ++ "]"
  | .obj kvs => "\x7b" ++ String.intercalate ", " (pyreprPairs kvs) ++ "\x7d"

/-- `repr()` of the elements of a Python list, in order. -/
def pyreprList : List JsonVal → List String
  | [] => []
  | v :: vs => pyrepr v :: pyreprList vs

/-- `repr()` of the `key: value` items of a Python dict, in order. -/
def pyreprPairs : List (String × JsonVal) → List String
  | [] => []
  | (k, v) :: kvs => ("\x27" ++ k ++ "\x27: " ++ pyrepr v) :: pyreprPairs kvs
end

/-- Python `str()`, as used by `len(str(item))` and f-string interpolation. -/
def pystr : JsonVal → String
  | .str s => s
  | v => pyrepr v

/-- `items[k]`: `KeyError` if the key is absent, `TypeError` if `items` is
not a dict. -/
def pyGet (items : JsonVal) (k : String) : Except PyError JsonVal :=
  match items with
  | .obj kvs =>
    match dictLookup kvs k with
    | some v => .ok v
    | none => .error (.keyError k)
  | _ => .error .typeError

/-- The argument type `datetime.fromtimestamp` accepts: an `int` (or a
`bool`, which is an `int`); other types raise `TypeError`. The range check
that `fromtimestamp` performs on the value is `pyFromtimestamp` below. -/
def pyTimestampArg : JsonVal → Except PyError Int
  | .int n => .ok n
  | .bool b => .ok (if b then 1 else 0)
  | _ => .error .typeError

/-- `datetime.fromtimestamp(t).strftime("%Y-%m-%d %H:%M:%S")`. The
environment decides which timestamps are representable (`tsOk`; CPython
raises `OverflowError`, `ValueError` or `OSError` outside roughly the
years 1..9999, with bounds shifted by the local timezone and narrowed on
some platforms) and what local-time string a representable one formats to
(`fmtTime`). -/
def pyFromtimestamp (tsOk : Int → Bool) (fmtTime : Int → String) (t : Int) :
    Except PyError String :=
  if tsOk t then .ok (fmtTime t) else .error .overflowError

/-- `str.ljust(w)`: pad on the right with spaces to width `w` (a string not
shorter than `w` is returned unchanged). -/
def pyLjust (s : String) (w : Nat) : String :=
  s ++ String.mk (List.replicate (w - s.length) ' ')

/-- The header row appended first in `list_server`. -/
def headerRow : List JsonVal :=
  [.str "Hostname", .str "IP Address", .str "Username", .str "Added at"]

/-- One data row `[hostname, items["ip"], items["username"],
fromtimestamp(items["add_time"]).strftime(...)]`. -/
def cellsOf (tsOk : Int → Bool) (fmtTime : Int → String) (hostname : String)
    (items : JsonVal) : Except PyError (List JsonVal) := do
  let ipv ← pyGet items "ip"
  let uv ← pyGet items "username"
  let tv ← pyGet items "add_time"
  let t ← pyTimestampArg tv
  let s ← pyFromtimestamp tsOk fmtTime t
  .ok [.str hostname, ipv, uv, .str s]

/-- The `for hostname, items in server_data.items()` loop building the data
rows, in iteration order. -/
def buildDataRows (tsOk : Int → Bool) (fmtTime : Int → String) :
    Dict → Except PyError (List (List JsonVal))
  | [] => .ok []
  | (hostname, items) :: rest => do
    let row ← cellsOf tsOk fmtTime hostname items
    let rows ← buildDataRows tsOk fmtTime rest
    .ok (row :: rows)

/-- Worker for `pyZip`, recursing structurally on the first row: emit one
column while every row still has an element, stop as soon as any row is
exhausted. -/
def pyZipAux : List JsonVal → List (List JsonVal) → List (List JsonVal)
  | [], _ => []
  | v :: r0, rest =>
    if rest.all (fun r => !r.isEmpty) then
      (v :: rest.map (fun r => r.headD .null)) :: pyZipAux r0 (rest.map List.tail)
    else []

/-- `zip(*rows)`: transpose, truncating at the shortest row. -/
def pyZip : List (List JsonVal) → List (List JsonVal)
  | [] => []
  | r0 :: rest => pyZipAux r0 rest

/-- `col_widths`: per column, `max(len(str(item)) for item in col)`. The
fold seed 0 is inert: every column produced by `pyZip` is nonempty and
lengths are nonnegative, so the fold equals Python's seedless `max`. -/
def colWidths (rows : List (List JsonVal)) : List Nat :=
  (pyZip rows).map (fun col => (col.map (fun item => (pystr item).length)).foldl Nat.max 0)

/-- `item.ljust(col_widths[i])` for one cell: `AttributeError` if the cell
is not a string (non-strings have no `.ljust`). -/
def renderCell (w : Nat) (cell : JsonVal) : Except PyError String :=
  match cell with
  | .str s => .ok (pyLjust s w)
  | _ => .error .attributeError

/-- Render the cells of one row against `col_widths`, in order (the
`enumerate` indexing; `IndexError` models `col_widths[i]` out of range). -/
def renderCells (ws : List Nat) (cells : List JsonVal) : Except PyError (List String) :=
  match cells, ws with
  | [], _ => .ok []
  | _ :: _, [] => .error .indexError
  | cell :: cs, w :: wsRest => do
    let s ← renderCell w cell
    let rest ← renderCells wsRest cs
    .ok (s :: rest)

/-- The printing loop: one `" | ".join(...)` line per row. (A Python
exception mid-loop would keep the lines already printed; the `Except` model
drops them, which no claim depends on.) -/
def renderLines (ws : List Nat) : List (List JsonVal) → Except PyError (List String)
  | [] => .ok []
  | row :: rest => do
    let cells ← renderCells ws row
    let lines ← renderLines ws rest
    .ok (String.intercalate " | " cells :: lines)

/-- `list_server`: returns the success flag and the printed lines (the
table followed by the blank line of the trailing `print()`). -/
def list_server (tsOk : Int → Bool) (fmtTime : Int → String) (sd : Dict) :
    Except PyError (Bool × List String) := do
  let dataRows ← buildDataRows tsOk fmtTime sd
  let rows := headerRow :: dataRows
  let lines ← renderLines (colWidths rows) rows
  .ok (true, lines ++ [""])

/-! ## `login_server` -/

/-- `login_server`, with the environment inputs `sshFound`
(`shutil.which("ssh") is not None`) and `sshExit` (the child's exit code).
Returns the success flag, the spawned child command lines, and the printed
messages. -/
def login_server (hostname : String) (sshFound : Bool) (sshExit : Int) (sd : Dict) :
    Except PyError (Bool × List (List String) × List String) :=
  if has_server hostname sd = false then
    .ok (false, [], ["Error: server \x60" ++ hostname ++ "\x60 doesn\x27t exist"])
  else if sshFound = false then
    .ok (false, [], ["Error: cannot find ssh executable"])
  else do
    let items ← (match dictLookup sd hostname with
                 | some items => Except.ok items
                 | none => Except.error (PyError.keyError hostname))
    let uv ← pyGet items "username"
    let ipv ← pyGet items "ip"
    .ok (true, [["ssh", pystr uv ++ "@" ++ pystr ipv]],
        ["ssh exits with code " ++ toString sshExit])

/-! ## The CLI entrypoint (`main`)

`argparse` guarantees at most one of the five mutually exclusive options.
Python truthiness drives the `if args.add: / elif args.list: / elif
args.login:` chain: a present `--add` value is a 3-element list (always
truthy), while `--login ""` is falsy and selects no operation. `--ping`
and `--remove` are parsed but never consulted. -/

/-- The parsed command line (`setup_args`). `add` holds the
`(IP, USERNAME, HOSTNAME)` triple. -/
structure Args where
  add : Option (String × String × String)
  listFlag : Bool
  login : Option String
  ping : Option String
  remove : Option String

/-- One process invocation: the command line plus the environment the
process observes (registry file content, current UTC Unix timestamp,
availability of `ssh`, and the exit code of a spawned `ssh`). -/
structure Invocation where
  args : Args
  file : Option JsonVal
  now : Int
  sshFound : Bool
  sshExit : Int

/-- Observable outcome of a run of `main` that terminates via `exit`:
exit code, the file writes of the load phase (creation of `{}` when the
file was absent), the file writes of the save phase, the in-memory
registry at save time, the spawned child commands and the printed lines. -/
structure RunResult where
  exitCode : Nat
  loadWrites : List JsonVal
  saveWrites : List JsonVal
  finalData : Dict
  spawns : List (List String)
  prints : List String

/-- `main` from the source (named `py_main` because Lean reserves `main`):
load (fatal on validation failure), dispatch at most one operation, save
unconditionally, exit 0 on success and 1 on reported failure. A `.error`
result models the process dying on an uncaught exception (no save,
uncontrolled nonzero exit). -/
def py_main (tsOk : Int → Bool) (fmtTime : Int → String) (inv : Invocation) :
    Except PyError RunResult := do
  let (loadRes, loadWrites) := read_server_data inv.file
  let sd0 ← loadRes
  let (ret, sd1, spawns, prints) ←
    (match inv.args.add with
     | some (ipaddr, username, hostname) =>
       let r := add_server ipaddr username hostname inv.now sd0
       .ok (r.1, r.2.1, [], r.2.2)
     | none =>
       if inv.args.listFlag then
         (list_server tsOk fmtTime sd0).map (fun r => (r.1, sd0, [], r.2))
       else
         match inv.args.login with
         | some hostname =>
           if hostname = "" then .ok (true, sd0, [], [])
           else (login_server hostname inv.sshFound inv.sshExit sd0).map
             (fun r => (r.1, sd0, r.2.1, r.2.2))
         | none => .ok (true, sd0, [], []) :
       Except PyError (Bool × Dict × List (List String) × List String))
  .ok { exitCode := if ret then 0 else 1
        loadWrites := loadWrites
        saveWrites := [save_server_data sd1]
        finalData := sd1
        spawns := spawns
        prints := prints }

/-! ## Spec-side definitions

These definitions formalise the words of the specification and the claims;
the theorems below relate them to the embedded code. -/

/-- A valid dotted-decimal IPv4 address string: four octet values, each at
most 255, rendered in canonical decimal (no leading zeros) and joined by
dots. -/
def IsDottedQuad (s : String) : Prop :=
  ∃ a b c d : Nat, a ≤ 255 ∧ b ≤ 255 ∧ c ≤ 255 ∧ d ≤ 255 ∧
    s = Nat.repr a ++ "." ++ Nat.repr b ++ "." ++ Nat.repr c ++ "." ++ Nat.repr d

/-- A registry record as the data model describes it: dotted-decimal `ip`
string, `username` text, integer Unix timestamp `add_time`. -/
structure ServerRecord where
  ip : String
  username : String
  add_time : Int

/-- The JSON object a `ServerRecord` is stored as. -/
def recordToJson (r : ServerRecord) : JsonVal :=
  .obj [("ip", .str r.ip), ("username", .str r.username), ("add_time", .int r.add_time)]

/-- The JSON object (as a dict) a whole registry is stored as. -/
def registryToJson (reg : List (String × ServerRecord)) : Dict :=
  reg.map (fun p => (p.1, recordToJson p.2))

/-- The data-model invariants on a record: valid IPv4 `ip`, non-empty
`username`. -/
def ValidRecord (r : ServerRecord) : Prop :=
  is_legal_ipv4_addr r.ip = true ∧ r.username ≠ ""

/-- What the loader actually accepts for one node: a dict whose key set is
exactly `{ip, username, add_time}`, whose `ip` passes `IPv4Address`
(dotted-decimal strings, and also packed integers and booleans in
`[0, 2^32)`), whose `username` is a non-empty string, and whose `add_time`
is an `isinstance`-integer (booleans included). Strictly more permissive
than the claim-side `entry_spec_ok` below. -/
def entry_accepted (items : JsonVal) : Bool :=
  match items with
  | .obj kvs =>
    keySetEq (kvs.map Prod.fst) &&
    (match dictLookup kvs "ip" with | some v => ipv4_ok v | none => false) &&
    (match dictLookup kvs "username" with | some v => username_ok v | none => false) &&
    (match dictLookup kvs "add_time" with | some v => add_time_ok v | none => false)
  | _ => false

/-- The claim-side reading of a valid `ip` field: a dotted-decimal IPv4
address string (the data model's `<IPv4 string>`). The loader's actual
check `ipv4_ok` is strictly more permissive. -/
def ip_spec_ok : JsonVal → Bool
  | .str s => is_legal_ipv4_addr s
  | _ => false

/-- The claim-side reading of an integer `add_time`: a JSON integer. The
loader's actual check `add_time_ok` additionally accepts booleans. -/
def add_time_spec_ok : JsonVal → Bool
  | .int _ => true
  | _ => false

/-- Claim C2's conditions on one loaded node, read literally: key set
exactly `{ip, username, add_time}`, `ip` a valid dotted-decimal IPv4
address string, `username` a non-empty string, `add_time` an integer. -/
def entry_spec_ok (items : JsonVal) : Bool :=
  match items with
  | .obj kvs =>
    keySetEq (kvs.map Prod.fst) &&
    (match dictLookup kvs "ip" with | some v => ip_spec_ok v | none => false) &&
    (match dictLookup kvs "username" with | some v => username_ok v | none => false) &&
    (match dictLookup kvs "add_time" with | some v => add_time_spec_ok v | none => false)
  | _ => false

/-- A node whose three fields are present with a string `ip`, a string
`username` and an integer-valued `add_time` (the shape every record the
data model describes has on disk). -/
def StrRecord (items : JsonVal) : Prop :=
  ∃ kvs ip u tv, items = JsonVal.obj kvs ∧
    dictLookup kvs "ip" = some (.str ip) ∧
    dictLookup kvs "username" = some (.str u) ∧
    dictLookup kvs "add_time" = some tv ∧ add_time_ok tv = true

/-- A node that stores its `ip` field as a string (load validation also
accepts JSON integers and booleans there, because `ipaddress.IPv4Address`
accepts packed ints). -/
def IpStrField (items : JsonVal) : Prop :=
  ∃ kvs s, items = JsonVal.obj kvs ∧ dictLookup kvs "ip" = some (JsonVal.str s)

/-- Spec-side extraction of a string field (total; meaningful under
`StrRecord`). -/
def getStrD (items : JsonVal) (k : String) : String :=
  match items with
  | .obj kvs => match dictLookup kvs k with | some (.str s) => s | _ => ""
  | _ => ""

/-- Spec-side extraction of the integer `add_time` field (total; meaningful
under `StrRecord`). -/
def getIntD (items : JsonVal) (k : String) : Int :=
  match items with
  | .obj kvs =>
    match dictLookup kvs k with
    | some (.int n) => n
    | some (.bool b) => if b then 1 else 0
    | _ => 0
  | _ => 0

/-- The header cells of the listing, as strings. -/
def specHeader : List String := ["Hostname", "IP Address", "Username", "Added at"]

/-- Spec-side view of one data row of the listing. -/
def specRow (fmtTime : Int → String) (p : String × JsonVal) : List String :=
  [p.1, getStrD p.2 "ip", getStrD p.2 "username", fmtTime (getIntD p.2 "add_time")]

/-- Spec-side view of the whole table: header row first, then one row per
record in registry iteration order. -/
def specRows (fmtTime : Int → String) (sd : Dict) : List (List String) :=
  specHeader :: sd.map (specRow fmtTime)

/-- Spec-side column width: the length of the widest entry of column `i`. -/
def specWidth (rows : List (List String)) (i : Nat) : Nat :=
  (rows.map (fun r => (r.getD i "").length)).foldl Nat.max 0

/-- Spec-side column widths of the four-column table. -/
def specWidths (rows : List (List String)) : List Nat :=
  (List.range 4).map (specWidth rows)

/-- Spec-side rendering of one row: every cell left-justified to its
column's width, cells joined by `" | "`. -/
def specLine (rows : List (List String)) (r : List String) : String :=
  String.intercalate " | " (List.zipWith pyLjust r (specWidths rows))

/-- Spec-side rendering of the whole listing: each row rendered against the
column widths, followed by the trailing blank line. -/
def specLines (fmtTime : Int → String) (sd : Dict) : List String :=
  ((specRows fmtTime sd).map (specLine (specRows fmtTime sd))) ++ [""]

/-- Join character groups with dots (left inverse of `splitDots`). -/
def joinDots : List (List Char) → List Char
  | [] => []
  | g :: gs =>
    match gs with
    | [] => g
    | _ :: _ => g ++ '.' :: joinDots gs

/-! ## Lemmas: characters and digit strings -/

theorem char_toNat_inj {a b : Char} (h : a.toNat = b.toNat) : a = b :=
  Char.ext (UInt32.ext h)

theorem isDigit_toNat {c : Char} (h : c.isDigit = true) : 48 ≤ c.toNat ∧ c.toNat ≤ 57 := by
  simp [Char.isDigit] at h
  exact ⟨h.1, h.2⟩

theorem digitVal_lt10 {c : Char} (h : c.isDigit = true) : digitVal c < 10 := by
  have hb := isDigit_toNat h
  unfold digitVal
  omega

theorem digit_eq_of_val_eq {a b : Char} (ha : a.isDigit = true) (hb : b.isDigit = true)
    (h : digitVal a = digitVal b) : a = b := by
  have h1 := isDigit_toNat ha
  have h2 := isDigit_toNat hb
  apply char_toNat_inj
  unfold digitVal at h
  omega

theorem digitVal_pos {c : Char} (h : c.isDigit = true) (hne : c ≠ '0') : 1 ≤ digitVal c := by
  have h1 := isDigit_toNat h
  have h0 : ('0' : Char).toNat = 48 := rfl
  have : c.toNat ≠ 48 := fun he => hne (char_toNat_inj (he.trans h0.symm))
  unfold digitVal
  omega

theorem octet_foldl (cs : List Char) (acc : Nat) :
    cs.foldl (fun a c => a * 10 + digitVal c) acc = acc * 10 ^ cs.length + octetVal cs := by
  induction cs generalizing acc with
  | nil => simp [octetVal]
  | cons c rest ih =>
    simp only [List.foldl, List.length_cons, octetVal]
    rw [ih (acc * 10 + digitVal c), ih (0 * 10 + digitVal c)]
    ring

theorem octetVal_cons (c : Char) (cs : List Char) :
    octetVal (c :: cs) = digitVal c * 10 ^ cs.length + octetVal cs := by
  unfold octetVal
  simp only [List.foldl]
  rw [octet_foldl, octet_foldl]
  ring

theorem octetVal_lt {cs : List Char} (h : cs.all Char.isDigit = true) :
    octetVal cs < 10 ^ cs.length := by
  induction cs with
  | nil => simp [octetVal]
  | cons c rest ih =>
    simp only [List.all_cons, Bool.and_eq_true] at h
    have hc := digitVal_lt10 h.1
    have hr := ih h.2
    rw [octetVal_cons, List.length_cons, pow_succ]
    calc digitVal c * 10 ^ rest.length + octetVal rest
        < digitVal c * 10 ^ rest.length + 10 ^ rest.length := by omega
      _ = (digitVal c + 1) * 10 ^ rest.length := by ring
      _ ≤ 10 * 10 ^ rest.length := Nat.mul_le_mul_right _ (by omega)
      _ = 10 ^ rest.length * 10 := by ring

theorem octetVal_inj {cs ds : List Char} (hc : cs.all Char.isDigit = true)
    (hd : ds.all Char.isDigit = true) (hlen : cs.length = ds.length)
    (hv : octetVal cs = octetVal ds) : cs = ds := by
  induction cs generalizing ds with
  | nil =>
    cases ds with
    | nil => rfl
    | cons d ds => simp at hlen
  | cons c cs ih =>
    cases ds with
    | nil => simp at hlen
    | cons d ds =>
      simp only [List.all_cons, Bool.and_eq_true] at hc hd
      simp only [List.length_cons, Nat.add_right_cancel_iff] at hlen
      rw [octetVal_cons, octetVal_cons, hlen] at hv
      have hp : 0 < 10 ^ ds.length := Nat.pos_pow_of_pos _ (by omega)
      have h1 : octetVal cs < 10 ^ ds.length := hlen ▸ octetVal_lt hc.2
      have h2 : octetVal ds < 10 ^ ds.length := octetVal_lt hd.2
      have hdv : digitVal c = digitVal d := by
        have e1 : (digitVal c * 10 ^ ds.length + octetVal cs) / 10 ^ ds.length = digitVal c := by
          rw [Nat.mul_comm, Nat.mul_add_div hp, Nat.div_eq_of_lt h1]
          omega
        have e2 : (digitVal d * 10 ^ ds.length + octetVal ds) / 10 ^ ds.length = digitVal d := by
          rw [Nat.mul_comm, Nat.mul_add_div hp, Nat.div_eq_of_lt h2]
          omega
        rw [← e1, ← e2, hv]
      have htv : octetVal cs = octetVal ds := by
        rw [hdv] at hv
        omega
      rw [digit_eq_of_val_eq hc.1 hd.1 hdv, ih hc.2 hd.2 hlen htv]

/-! ## Lemmas: octet parsing -/

theorem parse_octet_inv {cs : List Char} {n : Nat} (h : parse_octet cs = some n) :
    cs ≠ [] ∧ cs.all Char.isDigit = true ∧ cs.length ≤ 3 ∧
      (cs = ['0'] ∨ ¬ cs.head? = some '0') ∧ octetVal cs = n ∧ n ≤ 255 := by
  unfold parse_octet at h
  split_ifs at h with h1 h2 h3 h4 h5
  have h6 := Option.some.inj h
  refine ⟨h1, h2, by omega, ?_, h6, by omega⟩
  · by_cases he : cs = ['0']
    · exact Or.inl he
    · exact Or.inr (fun hh => h4 ⟨he, hh⟩)

set_option maxRecDepth 100000 in
theorem repr_parse_octet : ∀ n, n < 256 → parse_octet ((Nat.repr n).data) = some n ∧
    (Nat.repr n).data.length = (if n < 10 then 1 else if n < 100 then 2 else 3) := by decide

theorem parse_octet_canonical {cs : List Char} {n : Nat} (h : parse_octet cs = some n) :
    cs = (Nat.repr n).data := by
  obtain ⟨hne, hdig, hlen, hlead, hval, hle⟩ := parse_octet_inv h
  obtain ⟨hp, hl⟩ := repr_parse_octet n (by omega)
  obtain ⟨-, hdig2, -, -, hval2, -⟩ := parse_octet_inv hp
  have hlencs : cs.length = (Nat.repr n).data.length := by
    rw [hl]
    match cs, hne, hdig, hlead, hval with
    | [c1], _, hdig, _, hval =>
      have hd1 : c1.isDigit = true := by simpa using hdig
      have : octetVal [c1] = digitVal c1 := by rw [octetVal_cons]; simp [octetVal]
      have hn10 : n < 10 := by rw [← hval, this]; exact digitVal_lt10 hd1
      simp [hn10]
    | [c1, c2], _, hdig, hlead, hval =>
      simp only [List.all_cons, List.all_nil, Bool.and_eq_true, Bool.and_true] at hdig
      have hc1 : c1 ≠ '0' := by
        rcases hlead with he | hh
        · exact absurd he (by simp)
        · intro hc; exact hh (by simp [hc])
      have hpos := digitVal_pos hdig.1 hc1
      have hlt1 := digitVal_lt10 hdig.1
      have hlt2 := digitVal_lt10 hdig.2
      have hv2 : octetVal [c1, c2] = digitVal c1 * 10 + digitVal c2 := by
        rw [octetVal_cons, octetVal_cons]
        simp [octetVal]
      have hge : 10 ≤ n := by rw [← hval, hv2]; omega
      have hlt : n < 100 := by rw [← hval, hv2]; omega
      rw [if_neg (by omega : ¬ n < 10), if_pos hlt]
      simp
    | [c1, c2, c3], _, hdig, hlead, hval =>
      simp only [List.all_cons, List.all_nil, Bool.and_eq_true, Bool.and_true] at hdig
      have hc1 : c1 ≠ '0' := by
        rcases hlead with he | hh
        · exact absurd he (by simp)
        · intro hc; exact hh (by simp [hc])
      have hpos := digitVal_pos hdig.1 hc1
      have hlt2 := digitVal_lt10 hdig.2.1
      have hlt3 := digitVal_lt10 hdig.2.2
      have hv3 : octetVal [c1, c2, c3] =
          digitVal c1 * 100 + digitVal c2 * 10 + digitVal c3 := by
        rw [octetVal_cons, octetVal_cons, octetVal_cons]
        simp [octetVal]
        ring
      have hge : 100 ≤ n := by rw [← hval, hv3]; omega
      rw [if_neg (by omega : ¬ n < 10), if_neg (by omega : ¬ n < 100)]
      simp
    | c1 :: c2 :: c3 :: c4 :: rest, _, _, _, _ => simp at hlen
  exact octetVal_inj hdig hdig2 hlencs (hval.trans hval2.symm)

/-! ## Lemmas: splitting on dots -/

theorem splitDots_ne_nil (cs : List Char) : splitDots cs ≠ [] := by
  induction cs with
  | nil => simp [splitDots]
  | cons c rest ih =>
    unfold splitDots
    split
    · simp
    · cases hs : splitDots rest with
      | nil => simp
      | cons g gs => simp

theorem splitDots_no_dot {xs : List Char} (h : ∀ c ∈ xs, c ≠ '.') : splitDots xs = [xs] := by
  induction xs with
  | nil => rfl
  | cons c rest ih =>
    have hc : c ≠ '.' := h c (by simp)
    have hr := ih (fun x hx => h x (by simp [hx]))
    unfold splitDots
    rw [if_neg hc, hr]

theorem splitDots_cons (c : Char) (rest : List Char) :
    splitDots (c :: rest) =
      if c = '.' then [] :: splitDots rest
      else match splitDots rest with
        | g :: gs => (c :: g) :: gs
        | [] => [[c]] := rfl

theorem splitDots_append {xs ys : List Char} (h : ∀ c ∈ xs, c ≠ '.') :
    splitDots (xs ++ '.' :: ys) = xs :: splitDots ys := by
  induction xs with
  | nil => simp [splitDots]
  | cons c rest ih =>
    have hc : c ≠ '.' := h c (by simp)
    have hr := ih (fun x hx => h x (by simp [hx]))
    show splitDots (c :: (rest ++ '.' :: ys)) = (c :: rest) :: splitDots ys
    rw [splitDots_cons, if_neg hc, hr]

theorem joinDots_splitDots (cs : List Char) : joinDots (splitDots cs) = cs := by
  induction cs with
  | nil => rfl
  | cons c rest ih =>
    unfold splitDots
    by_cases hc : c = '.'
    · rw [if_pos hc]
      obtain ⟨g, gs, hg⟩ : ∃ g gs, splitDots rest = g :: gs := by
        cases hs : splitDots rest with
        | nil => exact absurd hs (splitDots_ne_nil rest)
        | cons g gs => exact ⟨g, gs, rfl⟩
      rw [hg] at ih ⊢
      show [] ++ '.' :: joinDots (g :: gs) = c :: rest
      rw [List.nil_append, ih, hc]
    · rw [if_neg hc]
      obtain ⟨g, gs, hg⟩ : ∃ g gs, splitDots rest = g :: gs := by
        cases hs : splitDots rest with
        | nil => exact absurd hs (splitDots_ne_nil rest)
        | cons g gs => exact ⟨g, gs, rfl⟩
      rw [hg] at ih ⊢
      cases gs with
      | nil =>
        show c :: g = c :: rest
        rw [show joinDots [g] = g from rfl] at ih
        rw [ih]
      | cons g2 gs2 =>
        show (c :: g) ++ '.' :: joinDots (g2 :: gs2) = c :: rest
        rw [show joinDots (g :: g2 :: gs2) = g ++ '.' :: joinDots (g2 :: gs2) from rfl] at ih
        rw [← ih]
        simp

/-! ## Lemmas: the full IPv4 parser -/

theorem parse_ipv4_eq_some {s : String} {a b c d : Nat} :
    parse_ipv4 s = some (a, b, c, d) ↔
      (splitDots s.data).map parse_octet = [some a, some b, some c, some d] := by
  constructor
  · intro h
    unfold parse_ipv4 at h
    split at h
    · rename_i a2 b2 c2 d2 heq
      obtain ⟨rfl, rfl, rfl, rfl⟩ : a2 = a ∧ b2 = b ∧ c2 = c ∧ d2 = d := by
        have := Option.some.inj h
        simp at this
        tauto
      exact heq
    · exact absurd h (by simp)
  · intro h
    unfold parse_ipv4
    rw [h]

theorem parse_octet_no_dot {cs : List Char} {n : Nat} (h : parse_octet cs = some n) :
    ∀ c ∈ cs, c ≠ '.' := by
  obtain ⟨-, hdig, -⟩ := parse_octet_inv h
  intro c hc he
  have : c.isDigit = true := List.all_eq_true.mp hdig c hc
  rw [he] at this
  simp [Char.isDigit] at this

/-- Claim C4: `is_legal_ipv4_addr` returns `true` exactly on the valid
dotted-decimal IPv4 address strings: it accepts every canonical
dotted-decimal rendering of four octets (each at most 255) and rejects
every other string — out-of-range octets, a wrong number of segments,
non-numeric segments, leading zeros, IPv6 forms, and any other malformed
input. -/
theorem is_legal_ipv4_addr_correct (s : String) :
    is_legal_ipv4_addr s = true ↔ IsDottedQuad s := by
  constructor
  · intro h
    obtain ⟨⟨a, b, c, d⟩, hq⟩ := Option.isSome_iff_exists.mp h
    have hmap := parse_ipv4_eq_some.mp hq
    obtain ⟨g1, g2, g3, g4, hsplit, h1, h2, h3, h4⟩ :
        ∃ g1 g2 g3 g4, splitDots s.data = [g1, g2, g3, g4] ∧
          parse_octet g1 = some a ∧ parse_octet g2 = some b ∧
          parse_octet g3 = some c ∧ parse_octet g4 = some d := by
      cases hsp : splitDots s.data with
      | nil => rw [hsp] at hmap; simp at hmap
      | cons g1 l1 =>
        cases l1 with
        | nil => rw [hsp] at hmap; simp at hmap
        | cons g2 l2 =>
          cases l2 with
          | nil => rw [hsp] at hmap; simp at hmap
          | cons g3 l3 =>
            cases l3 with
            | nil => rw [hsp] at hmap; simp at hmap
            | cons g4 l4 =>
              cases l4 with
              | nil =>
                rw [hsp] at hmap
                simp only [List.map_cons, List.map_nil, List.cons.injEq, and_true] at hmap
                exact ⟨g1, g2, g3, g4, rfl, hmap.1, hmap.2.1, hmap.2.2.1, hmap.2.2.2⟩
              | cons g5 l5 => rw [hsp] at hmap; simp at hmap
    refine ⟨a, b, c, d, (parse_octet_inv h1).2.2.2.2.2, (parse_octet_inv h2).2.2.2.2.2,
      (parse_octet_inv h3).2.2.2.2.2, (parse_octet_inv h4).2.2.2.2.2, ?_⟩
    have hdata : s.data = (Nat.repr a).data ++ '.' :: ((Nat.repr b).data ++ '.' ::
        ((Nat.repr c).data ++ '.' :: (Nat.repr d).data)) := by
      conv_lhs => rw [← joinDots_splitDots s.data]
      rw [hsplit, parse_octet_canonical h1, parse_octet_canonical h2,
        parse_octet_canonical h3, parse_octet_canonical h4]
      rfl
    have hrhs : (Nat.repr a ++ "." ++ Nat.repr b ++ "." ++ Nat.repr c ++ "." ++
        Nat.repr d).data = (Nat.repr a).data ++ '.' :: ((Nat.repr b).data ++ '.' ::
        ((Nat.repr c).data ++ '.' :: (Nat.repr d).data)) := by
      simp [String.data_append]
    calc s = String.mk s.data := rfl
      _ = Nat.repr a ++ "." ++ Nat.repr b ++ "." ++ Nat.repr c ++ "." ++ Nat.repr d := by
          rw [hdata, ← hrhs]
  · rintro ⟨a, b, c, d, ha, hb, hc, hd, rfl⟩
    have hpa := (repr_parse_octet a (by omega)).1
    have hpb := (repr_parse_octet b (by omega)).1
    have hpc := (repr_parse_octet c (by omega)).1
    have hpd := (repr_parse_octet d (by omega)).1
    have hdata : (Nat.repr a ++ "." ++ Nat.repr b ++ "." ++ Nat.repr c ++ "." ++
        Nat.repr d).data = (Nat.repr a).data ++ '.' :: ((Nat.repr b).data ++ '.' ::
        ((Nat.repr c).data ++ '.' :: (Nat.repr d).data)) := by
      simp [String.data_append]
    have hsplit : splitDots ((Nat.repr a ++ "." ++ Nat.repr b ++ "." ++ Nat.repr c ++ "." ++
        Nat.repr d).data) = [(Nat.repr a).data, (Nat.repr b).data,
          (Nat.repr c).data, (Nat.repr d).data] := by
      rw [hdata, splitDots_append (parse_octet_no_dot hpa),
        splitDots_append (parse_octet_no_dot hpb), splitDots_append (parse_octet_no_dot hpc),
        splitDots_no_dot (parse_octet_no_dot hpd)]
    have hps : parse_ipv4 (Nat.repr a ++ "." ++ Nat.repr b ++ "." ++ Nat.repr c ++ "." ++
        Nat.repr d) = some (a, b, c, d) :=
      parse_ipv4_eq_some.mpr (by rw [hsplit]; simp [hpa, hpb, hpc, hpd])
    unfold is_legal_ipv4_addr
    rw [hps]
    rfl

/-- Concrete instantiation of claim C4's theorem. -/
theorem is_legal_ipv4_addr_correct_witness :
    is_legal_ipv4_addr "203.0.113.5" = true ∧ IsDottedQuad "203.0.113.5" :=
  ⟨by decide, (is_legal_ipv4_addr_correct "203.0.113.5").mp (by decide)⟩

/-! ## Lemmas: dictionaries -/

theorem dictLookup_dictSet (sd : Dict) (k : String) (v : JsonVal) :
    dictLookup (dictSet sd k v) k = some v := by
  induction sd with
  | nil => simp [dictSet, dictLookup]
  | cons p rest ih =>
    obtain ⟨k2, v2⟩ := p
    unfold dictSet
    by_cases hk : k2 = k
    · rw [if_pos hk]
      simp [dictLookup]
    · rw [if_neg hk]
      unfold dictLookup
      rw [if_neg hk]
      exact ih

theorem dictLookup_isSome_of_contains {kvs : Dict} {k : String}
    (h : (kvs.map Prod.fst).contains k = true) : ∃ v, dictLookup kvs k = some v := by
  induction kvs with
  | nil => simp at h
  | cons p rest ih =>
    obtain ⟨k2, v2⟩ := p
    simp only [List.map_cons, List.contains_cons, Bool.or_eq_true, beq_iff_eq] at h
    unfold dictLookup
    by_cases hk : k2 = k
    · exact ⟨v2, by rw [if_pos hk]⟩
    · rcases h with he | hrest
      · exact absurd he.symm hk
      · rw [if_neg hk]
        exact ih hrest

/-! ## Claim C7 -/

/-- Claim C7: when the registry file does not exist, `read_server_data`
creates it containing the empty JSON object and returns the empty
registry, raising no validation error. -/
theorem read_server_data_missing_file :
    read_server_data none = (Except.ok [], [JsonVal.obj []]) := rfl

/-! ## Claim C3 -/

/-- Claim C3: `add_server` fails exactly when the address is not a valid
IPv4 address or the hostname is already registered; a failing call leaves
the registry unchanged, and a successful call registers the hostname with
exactly the given `ip` and `username` and with `add_time` equal to the
current UTC Unix timestamp `now` at insertion. -/
theorem add_server_spec (ipaddr username hostname : String) (now : Int) (sd : Dict) :
    ((add_server ipaddr username hostname now sd).1 = false ↔
      (is_legal_ipv4_addr ipaddr = false ∨ has_server hostname sd = true)) ∧
    ((add_server ipaddr username hostname now sd).1 = false →
      (add_server ipaddr username hostname now sd).2.1 = sd) ∧
    ((add_server ipaddr username hostname now sd).1 = true →
      has_server hostname (add_server ipaddr username hostname now sd).2.1 = true ∧
      dictLookup (add_server ipaddr username hostname now sd).2.1 hostname =
        some (.obj [("ip", .str ipaddr), ("username", .str username),
          ("add_time", .int now)])) := by
  unfold add_server
  split_ifs with h1 h2
  · simp [h1]
  · simp [h1, h2]
  · refine ⟨by simp [h1, h2], by simp, fun _ => ⟨?_, ?_⟩⟩
    · unfold has_server
      rw [dictLookup_dictSet]
      simp
    · exact dictLookup_dictSet sd hostname _

/-- Concrete instantiation of claim C3's theorem: a successful add on the
empty registry stores exactly the given record. -/
theorem add_server_spec_witness :
    has_server "box1" (add_server "203.0.113.5" "alice" "box1" 100 []).2.1 = true ∧
    dictLookup (add_server "203.0.113.5" "alice" "box1" 100 []).2.1 "box1" =
      some (.obj [("ip", .str "203.0.113.5"), ("username", .str "alice"),
        ("add_time", .int 100)]) :=
  (add_server_spec "203.0.113.5" "alice" "box1" 100 []).2.2 (by decide)

/-! ## Claim C6 -/

/-- Claim C6: `login_server` on an unregistered hostname reports failure
without spawning any child process; on a registered hostname with the
`ssh` executable present it spawns exactly `ssh username@ip`, waits for
it, and returns success whatever exit code `sshExit` the child returns
(the code is only reported in the printed message). -/
theorem login_server_spec (hostname : String) (sshFound : Bool) (sshExit : Int) (sd : Dict) :
    (has_server hostname sd = false →
      login_server hostname sshFound sshExit sd =
        .ok (false, [], ["Error: server \x60" ++ hostname ++ "\x60 doesn\x27t exist"])) ∧
    (∀ kvs u ip, has_server hostname sd = true → sshFound = true →
      dictLookup sd hostname = some (.obj kvs) →
      dictLookup kvs "username" = some (.str u) →
      dictLookup kvs "ip" = some (.str ip) →
      login_server hostname sshFound sshExit sd =
        .ok (true, [["ssh", u ++ "@" ++ ip]],
          ["ssh exits with code " ++ toString sshExit])) := by
  constructor
  · intro h
    simp [login_server, h]
  · intro kvs u ip hhas hfound hkv hu hip
    simp [login_server, hhas, hfound, hkv, pyGet, hu, hip, pystr, Except.bind, Bind.bind]

/-- Concrete instantiation of claim C6's theorem: both the unregistered
case and the successful-spawn case at concrete inputs. -/
theorem login_server_spec_witness :
    login_server "nope" true 0 [] =
      .ok (false, [], ["Error: server \x60nope\x60 doesn\x27t exist"]) ∧
    login_server "box1" true 7
        [("box1", .obj [("ip", .str "203.0.113.5"), ("username", .str "alice"),
          ("add_time", .int 1)])] =
      .ok (true, [["ssh", "alice@203.0.113.5"]], ["ssh exits with code 7"]) := by
  constructor
  · exact (login_server_spec "nope" true 0 []).1 (by decide)
  · exact (login_server_spec "box1" true 7
      [("box1", .obj [("ip", .str "203.0.113.5"), ("username", .str "alice"),
        ("add_time", .int 1)])]).2
      [("ip", .str "203.0.113.5"), ("username", .str "alice"), ("add_time", .int 1)]
      "alice" "203.0.113.5" (by decide) rfl rfl rfl rfl

/-! ## Lemmas: load validation -/

theorem validate_entry_accepted_iff (hostname : String) (items : JsonVal) :
    validate_entry hostname items = .ok () ↔ entry_accepted items = true := by
  cases items with
  | obj kvs =>
    unfold validate_entry entry_accepted
    cases hip : dictLookup kvs "ip" with
    | none =>
      cases hks : keySetEq (kvs.map Prod.fst) <;> simp [hks, hip]
    | some ipv =>
      cases hu : dictLookup kvs "username" with
      | none =>
        cases hks : keySetEq (kvs.map Prod.fst) <;> cases hiv : ipv4_ok ipv <;>
          simp [hks, hip, hu, hiv]
      | some uv =>
        cases ht : dictLookup kvs "add_time" with
        | none =>
          cases hks : keySetEq (kvs.map Prod.fst) <;> cases hiv : ipv4_ok ipv <;>
            cases huv : username_ok uv <;> simp [hks, hip, hu, ht, hiv, huv]
        | some tv =>
          cases hks : keySetEq (kvs.map Prod.fst) <;> cases hiv : ipv4_ok ipv <;>
            cases huv : username_ok uv <;> cases htv : add_time_ok tv <;>
            simp [hks, hip, hu, ht, hiv, huv, htv]
  | str s => simp [validate_entry, entry_accepted]
  | int n => simp [validate_entry, entry_accepted]
  | bool b => simp [validate_entry, entry_accepted]
  | null => simp [validate_entry, entry_accepted]
  | arr vs => simp [validate_entry, entry_accepted]

theorem validate_entry_error_hostname (hostname : String) (items : JsonVal)
    (h : entry_accepted items = false) :
    ∃ e, validate_entry hostname items = .error e ∧ e.hostname? = some hostname := by
  cases items with
  | obj kvs =>
    cases hks : keySetEq (kvs.map Prod.fst) with
    | false =>
      exact ⟨.illegalDict hostname, by simp [validate_entry, hks], rfl⟩
    | true =>
      have hcont : ((kvs.map Prod.fst).contains "ip" = true) ∧
          ((kvs.map Prod.fst).contains "username" = true) ∧
          ((kvs.map Prod.fst).contains "add_time" = true) := by
        unfold keySetEq REQUIRED_KEYS at hks
        simp at hks
        exact ⟨by simpa using hks.2.1, by simpa using hks.2.2.1, by simpa using hks.2.2.2⟩
      obtain ⟨ipv, hip⟩ := dictLookup_isSome_of_contains hcont.1
      obtain ⟨uv, hu⟩ := dictLookup_isSome_of_contains hcont.2.1
      obtain ⟨tv, ht⟩ := dictLookup_isSome_of_contains hcont.2.2
      cases hiv : ipv4_ok ipv with
      | false =>
        exact ⟨.illegalIp hostname ipv, by simp [validate_entry, hks, hip, hiv], rfl⟩
      | true =>
        cases huv : username_ok uv with
        | false =>
          exact ⟨.illegalUsername hostname uv,
            by simp [validate_entry, hks, hip, hu, hiv, huv], rfl⟩
        | true =>
          cases htv : add_time_ok tv with
          | false =>
            exact ⟨.illegalAddTime hostname tv,
              by simp [validate_entry, hks, hip, hu, ht, hiv, huv, htv], rfl⟩
          | true =>
            exact absurd h (by simp [entry_accepted, hks, hip, hu, ht, hiv, huv, htv])
  | str s => exact ⟨.nodeNotDict hostname, rfl, rfl⟩
  | int n => exact ⟨.nodeNotDict hostname, rfl, rfl⟩
  | bool b => exact ⟨.nodeNotDict hostname, rfl, rfl⟩
  | null => exact ⟨.nodeNotDict hostname, rfl, rfl⟩
  | arr vs => exact ⟨.nodeNotDict hostname, rfl, rfl⟩

theorem validate_entries_ok (kvs : Dict) (h : ∀ p ∈ kvs, entry_accepted p.2 = true) :
    validate_entries kvs = .ok () := by
  induction kvs with
  | nil => rfl
  | cons p rest ih =>
    obtain ⟨hn, items⟩ := p
    have h1 : validate_entry hn items = .ok () :=
      (validate_entry_accepted_iff hn items).mpr (h (hn, items) (by simp))
    have h2 : validate_entries rest = .ok () := ih (fun q hq => h q (by simp [hq]))
    unfold validate_entries
    rw [h1]
    simpa [Except.bind, Bind.bind] using h2

theorem validate_entries_first_error (pre : Dict) (hn : String) (v : JsonVal) (post : Dict)
    (hpre : ∀ p ∈ pre, entry_accepted p.2 = true) (hv : entry_accepted v = false) :
    ∃ e, validate_entries (pre ++ (hn, v) :: post) = .error e ∧
      e.hostname? = some hn := by
  induction pre with
  | nil =>
    obtain ⟨e, he, hh⟩ := validate_entry_error_hostname hn v hv
    refine ⟨e, ?_, hh⟩
    unfold validate_entries
    simp [he, Except.bind, Bind.bind]
  | cons p rest ih =>
    obtain ⟨hp, items⟩ := p
    have h1 : validate_entry hp items = .ok () :=
      (validate_entry_accepted_iff hp items).mpr (hpre (hp, items) (by simp))
    obtain ⟨e, he, hh⟩ := ih (fun q hq => hpre q (by simp [hq]))
    refine ⟨e, ?_, hh⟩
    show validate_entries ((hp, items) :: (rest ++ (hn, v) :: post)) = .error e
    unfold validate_entries
    simp [h1, he, Except.bind, Bind.bind]

/-! ## Claim C2 -/

theorem entry_accepted_of_spec {items : JsonVal} (h : entry_spec_ok items = true) :
    entry_accepted items = true := by
  cases items with
  | obj kvs =>
    unfold entry_spec_ok at h
    unfold entry_accepted
    simp only [Bool.and_eq_true] at h ⊢
    obtain ⟨⟨⟨hks, hip⟩, hu⟩, ht⟩ := h
    refine ⟨⟨⟨hks, ?_⟩, hu⟩, ?_⟩
    · cases hipl : dictLookup kvs "ip" with
      | none => rw [hipl] at hip; simp at hip
      | some v =>
        rw [hipl] at hip
        cases v <;> simp [ip_spec_ok] at hip <;> simp [ipv4_ok, hip]
    · cases htl : dictLookup kvs "add_time" with
      | none => rw [htl] at ht; simp at ht
      | some v =>
        rw [htl] at ht
        cases v <;> simp [add_time_spec_ok] at ht <;> simp [add_time_ok]
  | str s => simp [entry_spec_ok] at h
  | int n => simp [entry_spec_ok] at h
  | bool b => simp [entry_spec_ok] at h
  | null => simp [entry_spec_ok] at h
  | arr vs => simp [entry_spec_ok] at h

/-- Counterexample to claim C2 as stated: a record storing `ip` as the
JSON integer `5` (not a valid IPv4 address under the data model — not
even a string) and a record storing `add_time` as the JSON boolean `true`
(not an integer) both violate the claim's conditions, yet
`read_server_data` returns each file unchanged instead of aborting: the
loader checks `IPv4Address` acceptance (which also takes packed integers
and booleans) and `isinstance(…, int)` (which also takes booleans). -/
theorem read_server_data_accepts_quirks :
    entry_spec_ok (.obj [("ip", .int 5), ("username", .str "a"),
      ("add_time", .int 0)]) = false ∧
    read_server_data (some (.obj [("h", .obj [("ip", .int 5),
      ("username", .str "a"), ("add_time", .int 0)])])) =
      (.ok [("h", .obj [("ip", .int 5), ("username", .str "a"),
        ("add_time", .int 0)])], []) ∧
    entry_spec_ok (.obj [("ip", .str "203.0.113.5"), ("username", .str "a"),
      ("add_time", .bool true)]) = false ∧
    read_server_data (some (.obj [("h", .obj [("ip", .str "203.0.113.5"),
      ("username", .str "a"), ("add_time", .bool true)])])) =
      (.ok [("h", .obj [("ip", .str "203.0.113.5"), ("username", .str "a"),
        ("add_time", .bool true)])], []) :=
  ⟨rfl, rfl, rfl, rfl⟩

/-- Claim C2 (amended): `read_server_data` validates every entry of a
parsed file and is fail-fast, with validity read as what the loader
actually checks (`entry_accepted`): key set exactly
`{ip, username, add_time}`, an `ip` accepted by `IPv4Address`
(dotted-decimal strings, and also packed integers and booleans in
`[0, 2^32)`), a non-empty-string `username`, and an `isinstance`-integer
`add_time` (booleans included). A file whose entries all pass is returned
unchanged (and nothing is written); a file whose first offending entry is
`(hn, v)` aborts with a fatal error naming that hostname; and every entry
that is valid in the claim's strict sense (`entry_spec_ok`: string
dotted-decimal `ip`, integer `add_time`) is in particular accepted. -/
theorem read_server_data_validates (kvs : Dict) :
    ((∀ p ∈ kvs, entry_accepted p.2 = true) →
      read_server_data (some (.obj kvs)) = (.ok kvs, [])) ∧
    (∀ pre hn v post, kvs = pre ++ (hn, v) :: post →
      (∀ p ∈ pre, entry_accepted p.2 = true) → entry_accepted v = false →
      ∃ e, (read_server_data (some (.obj kvs))).1 = .error e ∧
        e.hostname? = some hn) ∧
    (∀ items, entry_spec_ok items = true → entry_accepted items = true) := by
  refine ⟨?_, ?_, fun items h => entry_accepted_of_spec h⟩
  · intro h
    simp [read_server_data, validate_entries_ok kvs h]
  · rintro pre hn v post rfl hpre hv
    obtain ⟨e, he, hh⟩ := validate_entries_first_error pre hn v post hpre hv
    refine ⟨e, ?_, hh⟩
    simp [read_server_data, he]

/-- Concrete instantiation of claim C2's amended theorem: a valid
one-record file loads unchanged; a file whose second record lacks
`add_time` aborts with an error naming that record's hostname; and a
record valid in the strict sense is accepted. -/
theorem read_server_data_validates_witness :
    read_server_data (some (.obj [("box1", .obj [("ip", .str "203.0.113.5"),
        ("username", .str "alice"), ("add_time", .int 100)])])) =
      (.ok [("box1", .obj [("ip", .str "203.0.113.5"),
        ("username", .str "alice"), ("add_time", .int 100)])], []) ∧
    (∃ e, (read_server_data (some (.obj [("box1", .obj [("ip", .str "203.0.113.5"),
        ("username", .str "alice"), ("add_time", .int 100)]),
        ("box2", .obj [("ip", .str "203.0.113.6"), ("username", .str "bob")])]))).1 =
        .error e ∧ e.hostname? = some "box2") ∧
    entry_accepted (.obj [("ip", .str "203.0.113.5"), ("username", .str "alice"),
      ("add_time", .int 100)]) = true := by
  refine ⟨?_, ?_, ?_⟩
  · exact (read_server_data_validates _).1 (by decide)
  · exact (read_server_data_validates _).2.1
      [("box1", .obj [("ip", .str "203.0.113.5"), ("username", .str "alice"),
        ("add_time", .int 100)])]
      "box2" (.obj [("ip", .str "203.0.113.6"), ("username", .str "bob")]) []
      rfl (by decide) (by decide)
  · exact (read_server_data_validates []).2.2 _ (by decide)

/-! ## Claim C1 -/

theorem entry_accepted_recordToJson {r : ServerRecord} (h : ValidRecord r) :
    entry_accepted (recordToJson r) = true := by
  simp [entry_accepted, recordToJson, dictLookup, keySetEq, REQUIRED_KEYS, ipv4_ok,
    username_ok, add_time_ok, h.1, h.2]

theorem dictLookup_registryToJson {reg : List (String × ServerRecord)}
    (hnodup : (reg.map Prod.fst).Nodup) {hn : String} {r : ServerRecord}
    (hmem : (hn, r) ∈ reg) :
    dictLookup (registryToJson reg) hn = some (recordToJson r) := by
  induction reg with
  | nil => simp at hmem
  | cons p rest ih =>
    obtain ⟨h2, r2⟩ := p
    simp only [List.map_cons, List.nodup_cons] at hnodup
    unfold registryToJson at ih ⊢
    simp only [List.map_cons]
    unfold dictLookup
    by_cases hk : h2 = hn
    · rw [if_pos hk]
      rcases List.mem_cons.mp hmem with he | hrest
      · obtain ⟨rfl, rfl⟩ : h2 = hn ∧ r2 = r := by
          have := Prod.mk.injEq .. ▸ he
          simp at this ⊢
          tauto
        rfl
      · exfalso
        apply hnodup.1
        rw [hk]
        exact List.mem_map.mpr ⟨(hn, r), hrest, rfl⟩
    · rw [if_neg hk]
      rcases List.mem_cons.mp hmem with he | hrest
      · exfalso
        apply hk
        have : h2 = hn ∧ r2 = r := by
          simp at he ⊢
          tauto
        exact this.1
      · exact ih hnodup.2 hrest

/-- Claim C1: saving any registry satisfying the data-model invariants and
loading it back yields an identical mapping — the load succeeds returning
exactly the saved JSON object, whose hostnames are those of the registry,
and each hostname maps to exactly its record's `ip`, `username` and
`add_time`. -/
theorem save_read_roundtrip (reg : List (String × ServerRecord))
    (hvalid : ∀ p ∈ reg, ValidRecord p.2)
    (hnodup : (reg.map Prod.fst).Nodup) :
    (read_server_data (some (save_server_data (registryToJson reg)))).1 =
      .ok (registryToJson reg) ∧
    (registryToJson reg).map Prod.fst = reg.map Prod.fst ∧
    (∀ hn r, (hn, r) ∈ reg →
      dictLookup (registryToJson reg) hn = some (recordToJson r)) := by
  refine ⟨?_, by simp [registryToJson], fun hn r hmem => dictLookup_registryToJson hnodup hmem⟩
  have hok : ∀ p ∈ registryToJson reg, entry_accepted p.2 = true := by
    intro p hp
    obtain ⟨q, hq, rfl⟩ := List.mem_map.mp hp
    exact entry_accepted_recordToJson (hvalid q hq)
  unfold save_server_data
  simp [read_server_data, validate_entries_ok (registryToJson reg) hok]

/-- Concrete instantiation of claim C1's theorem on a two-record registry. -/
theorem save_read_roundtrip_witness :
    (read_server_data (some (save_server_data (registryToJson
      [("box1", ⟨"203.0.113.5", "alice", 100⟩),
       ("box2", ⟨"198.51.100.7", "bob", 200⟩)])))).1 =
      .ok (registryToJson
      [("box1", ⟨"203.0.113.5", "alice", 100⟩),
       ("box2", ⟨"198.51.100.7", "bob", 200⟩)]) :=
  (save_read_roundtrip
    [("box1", ⟨"203.0.113.5", "alice", 100⟩), ("box2", ⟨"198.51.100.7", "bob", 200⟩)]
    (by rintro p hp
        simp at hp
        rcases hp with hp | hp <;> subst hp <;> exact ⟨by decide, by decide⟩)
    (by decide)).1

/-! ## Lemmas: the listing table -/

theorem headD_eq_getD {r : List JsonVal} (h : r ≠ []) :
    r.headD .null = r.getD 0 .null := by
  cases r with
  | nil => exact absurd rfl h
  | cons a t => rfl

theorem getD_tail {r : List JsonVal} (i : Nat) (h : r ≠ []) :
    r.tail.getD i .null = r.getD (i + 1) .null := by
  cases r with
  | nil => exact absurd rfl h
  | cons a t => rfl

theorem pyZipAux_uniform (n : Nat) :
    ∀ (r0 : List JsonVal) (rest : List (List JsonVal)), r0.length = n →
      (∀ r ∈ rest, r.length = n) →
      pyZipAux r0 rest =
        (List.range n).map (fun i => (r0 :: rest).map (fun r => r.getD i .null)) := by
  induction n with
  | zero =>
    intro r0 rest h0 hr
    rw [List.length_eq_zero.mp h0]
    rfl
  | succ n ih =>
    intro r0 rest h0 hr
    cases r0 with
    | nil => simp at h0
    | cons v r0t =>
      have hcond : rest.all (fun r => !r.isEmpty) = true := by
        rw [List.all_eq_true]
        intro r hrr
        have hl := hr r hrr
        cases r with
        | nil => simp at hl
        | cons a t => rfl
      have hne : ∀ r ∈ rest, r ≠ [] := by
        intro r hrr he
        have := hr r hrr
        rw [he] at this
        simp at this
      unfold pyZipAux
      rw [if_pos hcond]
      have hlen : ∀ r ∈ rest.map List.tail, r.length = n := by
        intro r hrr
        obtain ⟨r2, hr2, rfl⟩ := List.mem_map.mp hrr
        have hl := hr r2 hr2
        cases r2 with
        | nil => simp at hl
        | cons a t => simpa using hl
      rw [ih r0t (rest.map List.tail) (by simpa using h0) hlen]
      rw [List.range_succ_eq_map]
      simp only [List.map_cons, List.map_map]
      congr 1
      · show v :: rest.map (fun r => r.headD .null) =
          (v :: r0t).getD 0 .null :: rest.map (fun r => r.getD 0 .null)
        rw [show (v :: r0t).getD 0 .null = v from rfl]
        congr 1
        exact List.map_congr_left (fun r hrr => headD_eq_getD (hne r hrr))
      · apply List.map_congr_left
        intro i hi
        simp only [Function.comp_apply, List.map_cons, List.map_map]
        congr 1
        apply List.map_congr_left
        intro r hrr
        simp only [Function.comp_apply]
        exact getD_tail i (hne r hrr)

theorem pyZip_uniform (n : Nat) (rows : List (List JsonVal)) (hne : rows ≠ [])
    (h : ∀ r ∈ rows, r.length = n) :
    pyZip rows =
      (List.range n).map (fun i => rows.map (fun r => r.getD i .null)) := by
  cases rows with
  | nil => exact absurd rfl hne
  | cons r0 rest =>
    exact pyZipAux_uniform n r0 rest (h r0 (by simp)) (fun r hr => h r (by simp [hr]))

theorem getD_map_str {r : List String} {i : Nat} (h : i < r.length) :
    (r.map JsonVal.str).getD i .null = .str (r.getD i "") := by
  induction r generalizing i with
  | nil => simp at h
  | cons s rest ih =>
    cases i with
    | zero => rfl
    | succ i => exact ih (by simpa using h)

theorem colWidths_str (srows : List (List String)) (hne : srows ≠ [])
    (hlen : ∀ r ∈ srows, r.length = 4) :
    colWidths (srows.map (List.map JsonVal.str)) = specWidths srows := by
  unfold colWidths specWidths
  rw [pyZip_uniform 4 _ (by simpa using hne)
    (by intro r hr
        obtain ⟨r2, hr2, rfl⟩ := List.mem_map.mp hr
        simpa using hlen r2 hr2)]
  rw [List.map_map]
  apply List.map_congr_left
  intro i hi
  have hi4 : i < 4 := List.mem_range.mp hi
  simp only [Function.comp_apply]
  unfold specWidth
  congr 1
  rw [List.map_map, List.map_map]
  apply List.map_congr_left
  intro r hr
  simp only [Function.comp_apply]
  rw [getD_map_str (by rw [hlen r hr]; exact hi4)]
  rfl

theorem renderCells_str (r : List String) :
    ∀ (ws : List Nat), r.length ≤ ws.length →
      renderCells ws (r.map JsonVal.str) = .ok (List.zipWith pyLjust r ws) := by
  induction r with
  | nil => intro ws h; cases ws <;> rfl
  | cons s rest ih =>
    intro ws h
    cases ws with
    | nil => simp at h
    | cons w wsRest =>
      show renderCells (w :: wsRest) (.str s :: rest.map JsonVal.str) = _
      unfold renderCells renderCell
      rw [ih wsRest (by simpa using h)]
      rfl

theorem renderLines_str (ws : List Nat) (srows : List (List String))
    (h : ∀ r ∈ srows, r.length ≤ ws.length) :
    renderLines ws (srows.map (List.map JsonVal.str)) =
      .ok (srows.map (fun r => String.intercalate " | " (List.zipWith pyLjust r ws))) := by
  induction srows with
  | nil => rfl
  | cons r rest ih =>
    show renderLines ws (r.map JsonVal.str :: rest.map (List.map JsonVal.str)) = _
    unfold renderLines
    rw [renderCells_str r ws (h r (by simp)), ih (fun q hq => h q (by simp [hq]))]
    rfl

theorem cellsOf_strRecord (tsOk : Int → Bool) (fmtTime : Int → String) (hn : String)
    {items : JsonVal} (h : StrRecord items)
    (htime : tsOk (getIntD items "add_time") = true) :
    cellsOf tsOk fmtTime hn items =
      .ok ((specRow fmtTime (hn, items)).map JsonVal.str) := by
  obtain ⟨kvs, ip, u, tv, rfl, hip, hu, ht, htv⟩ := h
  have hg1 : getStrD (.obj kvs) "ip" = ip := by simp [getStrD, hip]
  have hg2 : getStrD (.obj kvs) "username" = u := by simp [getStrD, hu]
  cases tv with
  | int t =>
    have hg3 : getIntD (.obj kvs) "add_time" = t := by simp [getIntD, ht]
    rw [hg3] at htime
    simp [cellsOf, pyGet, hip, hu, ht, pyTimestampArg, pyFromtimestamp, htime, specRow,
      hg1, hg2, hg3, Except.bind, Bind.bind]
  | bool b =>
    have hg3 : getIntD (.obj kvs) "add_time" = if b then 1 else 0 := by simp [getIntD, ht]
    rw [hg3] at htime
    simp [cellsOf, pyGet, hip, hu, ht, pyTimestampArg, pyFromtimestamp, htime, specRow,
      hg1, hg2, hg3, Except.bind, Bind.bind]
  | str s => simp [add_time_ok] at htv
  | null => simp [add_time_ok] at htv
  | arr vs => simp [add_time_ok] at htv
  | obj kvs2 => simp [add_time_ok] at htv

theorem buildDataRows_str (tsOk : Int → Bool) (fmtTime : Int → String) (sd : Dict)
    (h : ∀ p ∈ sd, StrRecord p.2)
    (htime : ∀ p ∈ sd, tsOk (getIntD p.2 "add_time") = true) :
    buildDataRows tsOk fmtTime sd =
      .ok ((sd.map (specRow fmtTime)).map (List.map JsonVal.str)) := by
  induction sd with
  | nil => rfl
  | cons p rest ih =>
    obtain ⟨hn, items⟩ := p
    unfold buildDataRows
    rw [cellsOf_strRecord tsOk fmtTime hn (h (hn, items) (by simp))
        (htime (hn, items) (by simp)),
      ih (fun q hq => h q (by simp [hq])) (fun q hq => htime q (by simp [hq]))]
    rfl

theorem specRows_length (fmtTime : Int → String) (sd : Dict) :
    ∀ r ∈ specRows fmtTime sd, r.length = 4 := by
  intro r hr
  rcases List.mem_cons.mp hr with he | hm
  · rw [he]; rfl
  · obtain ⟨p, hp, rfl⟩ := List.mem_map.mp hm
    rfl

theorem list_server_ok (tsOk : Int → Bool) (fmtTime : Int → String) (sd : Dict)
    (h : ∀ p ∈ sd, StrRecord p.2)
    (htime : ∀ p ∈ sd, tsOk (getIntD p.2 "add_time") = true) :
    list_server tsOk fmtTime sd = .ok (true, specLines fmtTime sd) := by
  have hrows : headerRow :: ((sd.map (specRow fmtTime)).map (List.map JsonVal.str)) =
      (specRows fmtTime sd).map (List.map JsonVal.str) := rfl
  have hwidths := colWidths_str (specRows fmtTime sd) (by simp [specRows])
    (specRows_length fmtTime sd)
  have hlines := renderLines_str (specWidths (specRows fmtTime sd)) (specRows fmtTime sd)
    (by intro r hr
        rw [specRows_length fmtTime sd r hr]
        simp [specWidths])
  unfold list_server
  rw [buildDataRows_str tsOk fmtTime sd h htime]
  simp only [Except.bind, Bind.bind]
  rw [hrows, hwidths, hlines]
  unfold specLines specLine
  rfl

/-! ## Claims C8 and C9 -/

/-- Counterexample to claim C8 as stated: on a registry whose hostname is
wider than the header cell `Hostname`, the header cells are padded before
being joined, so no printed line (the header line included) contains the
literal text `Hostname | IP Address | Username | Added at` as a substring. -/
theorem list_server_header_not_contained :
    list_server (fun t => decide (0 ≤ t ∧ t < 253402300800)) (fun _ => "1970-01-01 00:00:01")
      [("averylonghostname", .obj [("ip", .str "203.0.113.5"),
        ("username", .str "alice"), ("add_time", .int 1)])] =
      .ok (true, ["Hostname          | IP Address  | Username | Added at           ",
        "averylonghostname | 203.0.113.5 | alice    | 1970-01-01 00:00:01", ""]) ∧
    (¬ List.IsInfix ("Hostname | IP Address | Username | Added at").data
      ("Hostname          | IP Address  | Username | Added at           ").data) ∧
    (¬ List.IsInfix ("Hostname | IP Address | Username | Added at").data
      ("averylonghostname | 203.0.113.5 | alice    | 1970-01-01 00:00:01").data) ∧
    (¬ List.IsInfix ("Hostname | IP Address | Username | Added at").data ("").data) :=
  ⟨rfl, by decide, by decide, by decide⟩

/-- Claim C8 (amended): for every registry whose records have the stored
shape (string `ip`, string `username`, integer-valued `add_time`),
`list_server` succeeds and prints exactly the table `specLines`: a header
row whose four cells are `Hostname`, `IP Address`, `Username`, `Added at`,
followed by one row per record in registry iteration order, every cell
left-justified to the width of the widest entry of its column, and a
trailing blank line; the header row equals the literal
`Hostname | IP Address | Username | Added at` only when no entry is wider
than its header cell. Moreover a `--list` invocation leaves the loaded
registry unchanged at save time. -/
theorem list_server_table (tsOk : Int → Bool) (fmtTime : Int → String) (sd : Dict)
    (h : ∀ p ∈ sd, StrRecord p.2)
    (htime : ∀ p ∈ sd, tsOk (getIntD p.2 "add_time") = true) :
    (list_server tsOk fmtTime sd = .ok (true, specLines fmtTime sd)) ∧
    (∀ inv kvs r, inv.args.add = none → inv.args.listFlag = true →
      (read_server_data inv.file).1 = .ok kvs → py_main tsOk fmtTime inv = .ok r →
      r.finalData = kvs) := by
  refine ⟨list_server_ok tsOk fmtTime sd h htime, ?_⟩
  intro inv kvs r hadd hlist hread hmain
  unfold py_main at hmain
  rcases hE : read_server_data inv.file with ⟨res, lw⟩
  rw [hE] at hmain hread
  simp only at hread
  subst hread
  rw [hadd, hlist] at hmain
  simp only [Except.bind, Bind.bind, if_true] at hmain
  cases hls : list_server tsOk fmtTime kvs with
  | error e => rw [hls] at hmain; exact absurd hmain (by simp [Except.map])
  | ok p =>
    rw [hls] at hmain
    obtain ⟨b, lines⟩ := p
    simp [Except.map, Except.bind, Bind.bind] at hmain
    rw [← hmain]

/-- Concrete instantiation of claim C8's amended theorem. -/
theorem list_server_table_witness :
    list_server (fun t => decide (0 ≤ t ∧ t < 253402300800)) (fun _ => "1970-01-01 00:00:01")
      [("box1", .obj [("ip", .str "203.0.113.5"), ("username", .str "alice"),
        ("add_time", .int 1)])] =
      .ok (true, specLines (fun _ => "1970-01-01 00:00:01")
        [("box1", .obj [("ip", .str "203.0.113.5"), ("username", .str "alice"),
          ("add_time", .int 1)])]) :=
  (list_server_table (fun t => decide (0 ≤ t ∧ t < 253402300800)) (fun _ => "1970-01-01 00:00:01")
    [("box1", .obj [("ip", .str "203.0.113.5"), ("username", .str "alice"),
      ("add_time", .int 1)])]
    (by rintro p hp
        simp at hp
        subst hp
        exact ⟨_, _, _, _, rfl, rfl, rfl, rfl, rfl⟩)
    (by rintro p hp
        simp at hp
        subst hp
        decide)).1

/-- Claim C9: on the empty registry `list_server` succeeds and prints
exactly the header row (each cell padded only to its own width, so the
literal header text) followed by one blank line; the column-width
computation over the header row alone raises no error. -/
theorem list_server_empty_registry (tsOk : Int → Bool) (fmtTime : Int → String) :
    list_server tsOk fmtTime [] =
      .ok (true, ["Hostname | IP Address | Username | Added at", ""]) := rfl

/-! ## Lemmas: completed runs of `main` -/

theorem entries_ok_of_validate : ∀ (kvs : Dict), validate_entries kvs = .ok () →
    ∀ p ∈ kvs, entry_accepted p.2 = true := by
  intro kvs h
  induction kvs with
  | nil => simp
  | cons q rest ih =>
    obtain ⟨hn, items⟩ := q
    unfold validate_entries at h
    cases hv : validate_entry hn items with
    | error e => rw [hv] at h; exact absurd h (by simp [Except.bind, Bind.bind])
    | ok u =>
      cases u
      rw [hv] at h
      simp only [Except.bind, Bind.bind] at h
      intro p hp
      rcases List.mem_cons.mp hp with he | hm
      · rw [he]
        exact (validate_entry_accepted_iff hn items).mp hv
      · exact ih h p hm

theorem read_ok_entries {file : Option JsonVal} {kvs : Dict}
    (h : (read_server_data file).1 = .ok kvs) : ∀ p ∈ kvs, entry_accepted p.2 = true := by
  match file with
  | none =>
    obtain rfl : ([] : Dict) = kvs := by simpa [read_server_data] using h
    simp
  | some (.obj kvs2) =>
    cases hv : validate_entries kvs2 with
    | error e =>
      rw [show (read_server_data (some (.obj kvs2))).1 = .error e by
        simp [read_server_data, hv]] at h
      exact absurd h (by simp)
    | ok u =>
      cases u
      obtain rfl : kvs2 = kvs := by simpa [read_server_data, hv] using h
      exact entries_ok_of_validate kvs2 hv
  | some (.str s) => exact absurd h (by simp [read_server_data])
  | some (.int n) => exact absurd h (by simp [read_server_data])
  | some (.bool b) => exact absurd h (by simp [read_server_data])
  | some .null => exact absurd h (by simp [read_server_data])
  | some (.arr vs) => exact absurd h (by simp [read_server_data])

theorem strRecord_of_entry_accepted {items : JsonVal} (h : entry_accepted items = true)
    (hip : IpStrField items) : StrRecord items := by
  obtain ⟨kvs, s, rfl, hiplook⟩ := hip
  unfold entry_accepted at h
  simp only [Bool.and_eq_true] at h
  obtain ⟨⟨⟨hks, hipok⟩, huok⟩, htok⟩ := h
  cases hu : dictLookup kvs "username" with
  | none => rw [hu] at huok; exact absurd huok (by simp)
  | some uv =>
    rw [hu] at huok
    cases uv with
    | str u =>
      cases ht : dictLookup kvs "add_time" with
      | none => rw [ht] at htok; exact absurd htok (by simp)
      | some tv =>
        rw [ht] at htok
        exact ⟨kvs, s, u, tv, rfl, hiplook, hu, ht, htok⟩
    | int n => exact absurd huok (by simp [username_ok])
    | bool b => exact absurd huok (by simp [username_ok])
    | null => exact absurd huok (by simp [username_ok])
    | arr vs => exact absurd huok (by simp [username_ok])
    | obj kvs2 => exact absurd huok (by simp [username_ok])

theorem dictLookup_mem {sd : Dict} {k : String} {v : JsonVal}
    (h : dictLookup sd k = some v) : (k, v) ∈ sd := by
  induction sd with
  | nil => simp [dictLookup] at h
  | cons p rest ih =>
    obtain ⟨k2, v2⟩ := p
    unfold dictLookup at h
    by_cases hk : k2 = k
    · rw [if_pos hk] at h
      subst hk
      simp at h
      simp [h]
    · rw [if_neg hk] at h
      exact List.mem_cons.mpr (Or.inr (ih h))

theorem login_server_completes (hostname : String) (sshFound : Bool) (sshExit : Int)
    (sd : Dict) (h : ∀ p ∈ sd, entry_accepted p.2 = true) :
    ∃ r, login_server hostname sshFound sshExit sd = .ok r := by
  unfold login_server
  cases hhas : has_server hostname sd with
  | false =>
    exact ⟨(false, [], ["Error: server \x60" ++ hostname ++ "\x60 doesn\x27t exist"]),
      by simp [hhas]⟩
  | true =>
    cases hfound : sshFound with
    | false => exact ⟨(false, [], ["Error: cannot find ssh executable"]), by simp [hhas, hfound]⟩
    | true =>
      simp only [Bool.true_eq_false, if_false]
      cases hkv : dictLookup sd hostname with
      | none => exact absurd hhas (by simp [has_server, hkv])
      | some items =>
        have hok : entry_accepted items = true := h (hostname, items) (dictLookup_mem hkv)
        cases items with
        | obj kvs =>
          unfold entry_accepted at hok
          simp only [Bool.and_eq_true] at hok
          obtain ⟨⟨⟨hks, hipok⟩, huok⟩, htok⟩ := hok
          cases hu : dictLookup kvs "username" with
          | none => rw [hu] at huok; exact absurd huok (by simp)
          | some uv =>
            cases hip : dictLookup kvs "ip" with
            | none => rw [hip] at hipok; exact absurd hipok (by simp)
            | some ipv =>
              exact ⟨(true, [["ssh", pystr uv ++ "@" ++ pystr ipv]],
                ["ssh exits with code " ++ toString sshExit]),
                by simp [hhas, hkv, pyGet, hu, hip, Except.bind, Bind.bind]⟩
        | str s => exact absurd hok (by simp [entry_accepted])
        | int n => exact absurd hok (by simp [entry_accepted])
        | bool b => exact absurd hok (by simp [entry_accepted])
        | null => exact absurd hok (by simp [entry_accepted])
        | arr vs => exact absurd hok (by simp [entry_accepted])

/-! ## Claim C5 -/

/-- Counterexample to claim C5 as stated: a registry file whose record
stores `ip` as the JSON integer `5` passes load validation (CPython's
`IPv4Address` accepts packed ints), yet the `--list` operation then dies
on `AttributeError` (`(5).ljust` does not exist) before `save_server_data`
runs — so an invocation whose load succeeded exits without rewriting the
file. -/
theorem save_skipped_on_list_crash :
    (read_server_data (some (.obj [("h", .obj [("ip", .int 5),
        ("username", .str "a"), ("add_time", .int 0)])]))).1 =
      .ok [("h", .obj [("ip", .int 5), ("username", .str "a"), ("add_time", .int 0)])] ∧
    py_main (fun t => decide (0 ≤ t ∧ t < 253402300800)) (fun _ => "1970-01-01 00:00:00")
      { args := { add := none, listFlag := true, login := none, ping := none, remove := none }
        file := some (.obj [("h", .obj [("ip", .int 5), ("username", .str "a"),
          ("add_time", .int 0)])])
        now := 0, sshFound := true, sshExit := 0 } = .error .attributeError :=
  ⟨rfl, rfl⟩

/-- The other way a loaded registry kills `--list` before the save: an
`add_time` outside `datetime.fromtimestamp`'s representable range (here
`10^18`, which passes load validation as an integer next to a perfectly
valid string `ip`) raises before any line is printed. -/
theorem save_skipped_on_fromtimestamp_crash :
    (read_server_data (some (.obj [("h", .obj [("ip", .str "203.0.113.5"),
        ("username", .str "a"), ("add_time", .int 1000000000000000000)])]))).1 =
      .ok [("h", .obj [("ip", .str "203.0.113.5"), ("username", .str "a"),
        ("add_time", .int 1000000000000000000)])] ∧
    py_main (fun t => decide (0 ≤ t ∧ t < 253402300800)) (fun _ => "1970-01-01 00:00:00")
      { args := { add := none, listFlag := true, login := none, ping := none, remove := none }
        file := some (.obj [("h", .obj [("ip", .str "203.0.113.5"),
          ("username", .str "a"), ("add_time", .int 1000000000000000000)])])
        now := 0, sshFound := true, sshExit := 0 } = .error .overflowError :=
  ⟨rfl, rfl⟩

/-- Claim C5 (amended): for every invocation whose load succeeds and, when
`--list` is selected, whose loaded records all store `ip` as a string (the
one case in which the selected operation can die on an uncaught
exception), `main` runs to completion and the save phase rewrites the
registry file exactly once, with the full in-memory registry at exit —
regardless of which operation was selected, whether it mutated the
registry, or whether it reported failure. -/
theorem save_always_runs (tsOk : Int → Bool) (fmtTime : Int → String) (inv : Invocation)
    (kvs : Dict) (hload : (read_server_data inv.file).1 = .ok kvs)
    (hipstr : inv.args.listFlag = true →
      ∀ p ∈ kvs, IpStrField p.2 ∧ tsOk (getIntD p.2 "add_time") = true) :
    ∃ r, py_main tsOk fmtTime inv = .ok r ∧
      r.saveWrites = [save_server_data r.finalData] := by
  have hok : ∀ p ∈ kvs, entry_accepted p.2 = true := read_ok_entries hload
  rcases hE : read_server_data inv.file with ⟨res, lw⟩
  rw [hE] at hload
  simp only at hload
  subst hload
  unfold py_main
  rw [hE]
  simp only [Except.bind, Bind.bind]
  cases hadd : inv.args.add with
  | some t =>
    obtain ⟨ipaddr, username, hostname⟩ := t
    exact ⟨_, rfl, rfl⟩
  | none =>
    cases hlist : inv.args.listFlag with
    | true =>
      rw [if_pos rfl]
      rw [list_server_ok tsOk fmtTime kvs
        (fun p hp => strRecord_of_entry_accepted (hok p hp) (hipstr hlist p hp).1)
        (fun p hp => (hipstr hlist p hp).2)]
      exact ⟨_, rfl, rfl⟩
    | false =>
      rw [if_neg (by simp)]
      cases hlogin : inv.args.login with
      | none => exact ⟨_, rfl, rfl⟩
      | some hostname =>
        dsimp only
        by_cases hh : hostname = ""
        · rw [if_pos hh]
          exact ⟨_, rfl, rfl⟩
        · rw [if_neg hh]
          obtain ⟨r2, hr2⟩ :=
            login_server_completes hostname inv.sshFound inv.sshExit kvs hok
          rw [hr2]
          exact ⟨_, rfl, rfl⟩

/-- Concrete instantiation of claim C5's amended theorem: a failing
`--add` (duplicate hostname) still completes and still rewrites the file
once with the unchanged registry. -/
theorem save_always_runs_witness :
    ∃ r, py_main (fun t => decide (0 ≤ t ∧ t < 253402300800)) (fun _ => "1970-01-01 00:00:00")
      (Invocation.mk (Args.mk (some ("203.0.113.5", "alice", "box1")) false none none none)
        (some (.obj [("box1", .obj [("ip", .str "203.0.113.5"),
          ("username", .str "alice"), ("add_time", .int 0)])]))
        50 true 0) = .ok r ∧
      r.saveWrites = [save_server_data r.finalData] :=
  save_always_runs (fun t => decide (0 ≤ t ∧ t < 253402300800)) (fun _ => "1970-01-01 00:00:00") _
    [("box1", .obj [("ip", .str "203.0.113.5"), ("username", .str "alice"),
      ("add_time", .int 0)])]
    rfl (by intro h; exact absurd h (by decide))

/-! ## Claim C10 -/

/-- Claim C10: selecting `--ping` or `--remove` runs no operation logic:
the dispatch chain consults only `add`, `list` and `login`, so with a
successfully loaded registry the in-memory registry is left exactly as
loaded, the save phase still rewrites the file with that unchanged
registry, nothing is spawned or printed, and the process exits 0 whatever
hostname the flag was given. -/
theorem ping_remove_noop (tsOk : Int → Bool) (fmtTime : Int → String) (inv : Invocation)
    (kvs : Dict)
    (hsel : inv.args.ping ≠ none ∨ inv.args.remove ≠ none)
    (hadd : inv.args.add = none) (hlist : inv.args.listFlag = false)
    (hlogin : inv.args.login = none)
    (hload : (read_server_data inv.file).1 = .ok kvs) :
    py_main tsOk fmtTime inv = .ok (RunResult.mk 0 (read_server_data inv.file).2
      [save_server_data kvs] kvs [] []) := by
  rcases hE : read_server_data inv.file with ⟨res, lw⟩
  rw [hE] at hload
  simp only at hload
  subst hload
  unfold py_main
  rw [hE, hadd, hlist, hlogin]
  rfl

/-- Concrete instantiation of claim C10's theorem for a `--ping`
invocation. -/
theorem ping_remove_noop_witness :
    py_main (fun t => decide (0 ≤ t ∧ t < 253402300800)) (fun _ => "1970-01-01 00:00:00")
      (Invocation.mk (Args.mk none false none (some "box9") none)
        (some (.obj [("box1", .obj [("ip", .str "203.0.113.5"),
          ("username", .str "alice"), ("add_time", .int 0)])]))
        50 true 0) =
      .ok (RunResult.mk 0
        (read_server_data (some (.obj [("box1", .obj [("ip", .str "203.0.113.5"),
          ("username", .str "alice"), ("add_time", .int 0)])]))).2
        [save_server_data [("box1", .obj [("ip", .str "203.0.113.5"),
          ("username", .str "alice"), ("add_time", .int 0)])]]
        [("box1", .obj [("ip", .str "203.0.113.5"),
          ("username", .str "alice"), ("add_time", .int 0)])] [] []) :=
  ping_remove_noop (fun t => decide (0 ≤ t ∧ t < 253402300800)) (fun _ => "1970-01-01 00:00:00")
    (Invocation.mk (Args.mk none false none (some "box9") none)
      (some (.obj [("box1", .obj [("ip", .str "203.0.113.5"),
        ("username", .str "alice"), ("add_time", .int 0)])]))
      50 true 0)
    [("box1", .obj [("ip", .str "203.0.113.5"), ("username", .str "alice"),
      ("add_time", .int 0)])]
    (Or.inl (by decide)) rfl rfl rfl rfl
